import Mathlib

/-!
Shallow embedding of the sd-webui control plane, covering the job queue
processor (backend/services/queueProcessor.js, given as src/unnamed/part_002)
and the model downloader (src/backend/services/modelDownloader.js), together
with theorems settling the spec claims about them.

Conventions: JavaScript objects become structures; the in-memory Map keyed by
string becomes an association list with Map.set replacement semantics; numeric
progress values (JS numbers holding exact decimal constants and ratios) become
rationals; fallible code returns Except or pairs a result with an optional
thrown-error message; I/O effects (DB updates, progress callbacks) become an
explicit trace of effect values.
-/

namespace SDWebui

/-! ### Job queue data model (queueProcessor.js, src/unnamed/part_002) -/

/-- Job status values used by the queue store and processor. -/
inductive JobStatus
  | pending
  | processing
  | completed
  | failed
  | cancelled
deriving DecidableEq, Repr

/-- A queued job row. `jobType` is the string the processor switches on
(generate / edit / variation / anything else). -/
structure Job where
  id : Nat
  jobType : String
  createdAt : Nat
  status : JobStatus
  progress : Option ℚ
  error : Option String
deriving DecidableEq, Repr

/-- The engine response consumed by the handlers: `data` is the list of
base64 image payloads (`response.data`, each with `b64_json`). -/
structure EngineResponse where
  data : List String
deriving DecidableEq, Repr

/-- One observable effect of a processor run: a DB status update (with the
optional recorded error message), a progress update, a generation record
insert, or a generated-image insert with its batch index. -/
inductive Effect
  | setStatus (id : Nat) (s : JobStatus) (err : Option String)
  | setProgress (id : Nat) (p : ℚ)
  | createGeneration (kind : String)
  | createImage (idx : Nat)
deriving DecidableEq, Repr

/-- Effect trace of processGenerateJob (part_002 lines 102-160) together with
the propagated error, if any.  The source emits progress 0.1, builds params,
emits 0.3, awaits generateImageDirect (the modelled failure point), emits 0.7,
inserts the generation record, emits 0.9, then inserts one image per element
of response.data. -/
def processGenerateJob (j : Job) (r : Except String EngineResponse) :
    List Effect × Option String :=
  match r with
  | Except.error e =>
      ([Effect.setProgress j.id (1/10), Effect.setProgress j.id (3/10)], some e)
  | Except.ok resp =>
      ([Effect.setProgress j.id (1/10), Effect.setProgress j.id (3/10),
        Effect.setProgress j.id (7/10), Effect.createGeneration "generate",
        Effect.setProgress j.id (9/10)]
        ++ (List.range resp.data.length).map Effect.createImage, none)

/-- Effect trace of processEditJob (part_002 lines 165-217).  Unlike the
generate handler it emits no 0.1 update: the first progress update is 0.3. -/
def processEditJob (j : Job) (r : Except String EngineResponse) :
    List Effect × Option String :=
  match r with
  | Except.error e => ([Effect.setProgress j.id (3/10)], some e)
  | Except.ok resp =>
      ([Effect.setProgress j.id (3/10), Effect.setProgress j.id (7/10),
        Effect.createGeneration "edit", Effect.setProgress j.id (9/10)]
        ++ (List.range resp.data.length).map Effect.createImage, none)

/-- Effect trace of processVariationJob (part_002 lines 222-272); the same
shape as the edit handler (first progress update is 0.3). -/
def processVariationJob (j : Job) (r : Except String EngineResponse) :
    List Effect × Option String :=
  match r with
  | Except.error e => ([Effect.setProgress j.id (3/10)], some e)
  | Except.ok resp =>
      ([Effect.setProgress j.id (3/10), Effect.setProgress j.id (7/10),
        Effect.createGeneration "variation", Effect.setProgress j.id (9/10)]
        ++ (List.range resp.data.length).map Effect.createImage, none)

/-- The dispatch switch of processQueue (part_002 lines 66-80): generate,
edit and variation have handlers; any other type throws
`Unknown job type: <type>` before producing any handler effect. -/
def dispatchJob (j : Job) (r : Except String EngineResponse) :
    List Effect × Option String :=
  if j.jobType = "generate" then processGenerateJob j r
  else if j.jobType = "edit" then processEditJob j r
  else if j.jobType = "variation" then processVariationJob j r
  else ([], some ("Unknown job type: " ++ j.jobType))

/-- Full effect trace of one processQueue body run on a claimed job
(part_002 lines 62-96): set status processing, run the dispatch switch inside
try, then either set status completed or (in the catch block) set status
failed recording the error message. -/
def processQueueTrace (j : Job) (r : Except String EngineResponse) :
    List Effect :=
  Effect.setStatus j.id JobStatus.processing none ::
    (let d := dispatchJob j r
     d.1 ++ [match d.2 with
             | none => Effect.setStatus j.id JobStatus.completed none
             | some e => Effect.setStatus j.id JobStatus.failed (some e)])

/-- Modelled from the spec: updateJobStatus lives in
backend/db/queueQueries.js, which is not under src/.  Per the spec, progress
updates are published in the order 0.1, 0.3, 0.7, 0.9, 1.0 and a completed
job has final progress 1.0, so setting status completed publishes the final
progress value 1.0.  This extracts the published progress sequence of a
trace. -/
def publishedProgress (t : List Effect) : List ℚ :=
  t.filterMap fun e =>
    match e with
    | Effect.setProgress _ p => some p
    | Effect.setStatus _ JobStatus.completed _ => some 1
    | _ => none

/-- The statuses recorded for a job id along a trace, in order. -/
def statusUpdates (t : List Effect) (jid : Nat) : List JobStatus :=
  t.filterMap fun e =>
    match e with
    | Effect.setStatus i s _ => if i = jid then some s else none
    | _ => none

/-- The error-message slots recorded alongside status updates for a job id
along a trace, in order. -/
def errorUpdates (t : List Effect) (jid : Nat) : List (Option String) :=
  t.filterMap fun e =>
    match e with
    | Effect.setStatus i _ m => if i = jid then some m else none
    | _ => none

/-- The last status recorded for a job id in a trace. -/
def finalStatus (t : List Effect) (jid : Nat) : Option JobStatus :=
  (statusUpdates t jid).getLast?

/-- The last error message recorded alongside a status update for a job id in
a trace. -/
def finalError (t : List Effect) (jid : Nat) : Option String :=
  ((errorUpdates t jid).getLast?).join

/-! ### Processor state machine (processQueue, part_002 lines 46-97)

The claim step of processQueue — check isProcessing, getNextPendingJob,
set isProcessing and currentJob, updateJobStatus to processing — contains no
await, so under JavaScript run-to-completion semantics it executes as one
indivisible segment; the handler part suspends at the engine call and its
resumption (status completed/failed plus releasing the flag) is a second
segment.  Several processor loops over the same store interleave only at
those segment boundaries, which the action list below makes explicit. -/

/-- Earliest-index minimum of a job list by createdAt (ties keep the earlier
element, matching ORDER BY created_at ascending over insertion order). -/
def minByCreated : List Job → Option Job
  | [] => none
  | j :: rest =>
      match minByCreated rest with
      | none => some j
      | some k => if k.createdAt < j.createdAt then some k else some j

/-- Modelled from the spec: getNextPendingJob lives in
backend/db/queueQueries.js, which is not under src/.  Per the spec it returns
the oldest pending job by created_at, or null. -/
def getNextPendingJob (jobs : List Job) : Option Job :=
  minByCreated (jobs.filter fun j => j.status = JobStatus.pending)

/-- Modelled from the spec: updateJobStatus lives in
backend/db/queueQueries.js, which is not under src/.  It sets the job row's
status, records the error message when one is passed in the extras, and —
since the spec requires a completed job to have final progress 1.0 — sets
progress 1 on completion. -/
def updateJobStatus (jobs : List Job) (jid : Nat) (s : JobStatus)
    (err : Option String) : List Job :=
  jobs.map fun j =>
    if j.id = jid then
      { j with
        status := s
        error := match err with | some m => some m | none => j.error
        progress := if s = JobStatus.completed then some 1 else j.progress }
    else j

/-- Shared mutable state of the processor module: the job store plus the
module-level isProcessing flag and currentJob reference (part_002 lines
6-7). -/
structure ProcState where
  jobs : List Job
  isProcessing : Bool
  currentJob : Option Nat
deriving DecidableEq, Repr

/-- An interleaving action: a claim segment executed by the loop with the
given index, or the resumption of the in-flight job with the given id and
engine outcome. -/
inductive PAction
  | claim (loop : Nat)
  | finish (jid : Nat) (res : Except String Unit)

/-- The synchronous claim segment of processQueue (lines 46-64): when the
flag is clear and a pending job exists, set the flag, remember the job and
write status processing, returning the claimed job id. -/
def stepClaim (s : ProcState) : ProcState × Option Nat :=
  if s.isProcessing then (s, none)
  else
    match getNextPendingJob s.jobs with
    | none => (s, none)
    | some j =>
        ({ jobs := updateJobStatus s.jobs j.id JobStatus.processing none
           isProcessing := true
           currentJob := some j.id }, some j.id)

/-- The resumption segment of processQueue (lines 82-96): write the terminal
status for the in-flight job (completed on success, failed with the error
message otherwise) and release the flag in the finally block. -/
def stepFinish (s : ProcState) (jid : Nat) (res : Except String Unit) :
    ProcState :=
  if s.currentJob = some jid then
    { jobs :=
        match res with
        | Except.ok _ => updateJobStatus s.jobs jid JobStatus.completed none
        | Except.error e => updateJobStatus s.jobs jid JobStatus.failed (some e)
      isProcessing := false
      currentJob := none }
  else s

/-- One interleaving step. -/
def step (s : ProcState) : PAction → ProcState
  | PAction.claim _ => (stepClaim s).1
  | PAction.finish jid res => stepFinish s jid res

/-- Run a list of interleaving actions. -/
def run (s : ProcState) (acts : List PAction) : ProcState :=
  acts.foldl step s

/-- The claim events of a run: which job id was claimed by which loop. -/
def runEvents : ProcState → List PAction → List (Nat × Nat)
  | _, [] => []
  | s, PAction.claim l :: rest =>
      match (stepClaim s).2 with
      | some jid => (jid, l) :: runEvents (stepClaim s).1 rest
      | none => runEvents (stepClaim s).1 rest
  | s, PAction.finish jid res :: rest => runEvents (stepFinish s jid res) rest

/-- Ids of pending jobs in store order. -/
def pendingIds (jobs : List Job) : List Nat :=
  (jobs.filter fun j => j.status = JobStatus.pending).map Job.id

/-- Number of jobs whose status is processing. -/
def processingCount (jobs : List Job) : Nat :=
  (jobs.filter fun j => j.status = JobStatus.processing).length

/-- Consistency invariant of the processor state: when idle no job is in
status processing, and while a job is in flight exactly the rows bearing its
id are in status processing. -/
def Inv (s : ProcState) : Prop :=
  match s.currentJob with
  | none =>
      s.isProcessing = false ∧ ∀ j ∈ s.jobs, j.status ≠ JobStatus.processing
  | some jid =>
      s.isProcessing = true ∧
        ∀ j ∈ s.jobs, (j.id = jid ↔ j.status = JobStatus.processing)

/-! ### Model downloader (src/backend/services/modelDownloader.js) -/

/-- Download job status constants (modelDownloader.js lines 26-33). -/
inductive DownloadStatus
  | pending
  | downloading
  | paused
  | completed
  | failed
  | cancelled
deriving DecidableEq, Repr

/-- Per-file tracking entry stored in job.files (a JS Map value).  The data
handler writes entries without a complete field (undefined, hence falsy,
modelled false) and with speed/eta set; the end handler writes complete true
with no speed/eta (modelled none). -/
structure FileProgress where
  size : Nat
  downloaded : Nat
  progress : ℚ
  speed : Option ℚ
  eta : Option ℚ
  complete : Bool
deriving DecidableEq, Repr

/-- In-memory download job record (downloadJobs map entry, lines 388-400).
The JS Map job.files becomes an association list keyed by destination path;
abortController's aborted state becomes the aborted flag. -/
structure DownloadJob where
  id : String
  repo : String
  status : DownloadStatus
  files : List (String × FileProgress)
  progress : ℚ
  bytesDownloaded : Nat
  totalBytes : Nat
  speed : ℚ
  eta : ℚ
  error : Option String
  aborted : Bool
deriving DecidableEq, Repr

/-- JS Map.set semantics on the association list: replace the entry with the
given key in place, else append. -/
def setFile : List (String × FileProgress) → String → FileProgress →
    List (String × FileProgress)
  | [], p, f => [(p, f)]
  | (q, g) :: rest, p, f =>
      if q = p then (p, f) :: rest else (q, g) :: setFile rest p f

/-- Sum of the per-file downloaded counters (the loop at lines 287-292 /
529-535, `totalDownloaded += file.downloaded`). -/
def sumDownloaded (fs : List (String × FileProgress)) : Nat :=
  (fs.map fun e => e.2.downloaded).sum

/-- Sum of the per-file sizes (`totalSize += file.size || 0`). -/
def sumSize (fs : List (String × FileProgress)) : Nat :=
  (fs.map fun e => e.2.size).sum

/-- Result of calculateProgress (lines 44-58): per-file percentage, speed in
bytes per second and ETA in seconds.  now and lastTime are in milliseconds. -/
structure ProgressCalc where
  progress : ℚ
  speed : ℚ
  eta : ℚ
deriving DecidableEq, Repr

/-- calculateProgress (lines 44-58): progress is a percentage
(ratio times 100) when the total is known, else 0; speed is the byte delta
over the time delta; ETA is remaining bytes over speed. -/
def calculateProgress (bytesDownloaded totalBytes : Nat)
    (lastBytes : Nat) (lastTime now : ℚ) : ProgressCalc :=
  let progress : ℚ :=
    if 0 < totalBytes then ((bytesDownloaded : ℚ) / (totalBytes : ℚ)) * 100
    else 0
  let timeDiff : ℚ := (now - lastTime) / 1000
  let speed : ℚ :=
    if 0 < timeDiff then ((bytesDownloaded : ℚ) - (lastBytes : ℚ)) / timeDiff
    else 0
  let eta : ℚ :=
    if 0 < speed then ((totalBytes : ℚ) - (bytesDownloaded : ℚ)) / speed
    else 0
  { progress := progress, speed := speed, eta := eta }

/-- The throttled progress-update block of the stream data handler
(downloadFile, lines 266-326): store the file's new counters, recompute the
aggregate totals across all files of the record, set the overall percentage,
and carry speed/ETA onto the job. -/
def progressUpdateStep (job : DownloadJob) (path : String)
    (totalBytes bytesDownloaded lastBytes : Nat) (lastTime now : ℚ) :
    DownloadJob :=
  let c := calculateProgress bytesDownloaded totalBytes lastBytes lastTime now
  let files2 := setFile job.files path
    { size := totalBytes, downloaded := bytesDownloaded, progress := c.progress,
      speed := some c.speed, eta := some c.eta, complete := false }
  let totalDownloaded := sumDownloaded files2
  let totalSize := sumSize files2
  let overallProgress : ℚ :=
    if 0 < totalSize then ((totalDownloaded : ℚ) / (totalSize : ℚ)) * 100
    else 0
  { job with
    files := files2
    progress := overallProgress
    bytesDownloaded := totalDownloaded
    totalBytes := totalSize
    speed := c.speed
    eta := c.eta }

/-- The stream end handler (lines 330-342): mark the file complete at 100%
with its final counters; the job-level aggregates are not recomputed here. -/
def fileEndStep (job : DownloadJob) (path : String)
    (totalBytes bytesDownloaded : Nat) : DownloadJob :=
  { job with
    files := setFile job.files path
      { size := totalBytes, downloaded := bytesDownloaded, progress := 100,
        speed := none, eta := none, complete := true } }

/-- The aggregate view returned by getDownloadStatus (lines 521-557):
bytesDownloaded and totalBytes are recomputed sums over the files map, while
progress echoes the stored job.progress. -/
structure DownloadStatusView where
  id : String
  repo : String
  status : DownloadStatus
  progress : ℚ
  bytesDownloaded : Nat
  totalBytes : Nat
  error : Option String
deriving DecidableEq, Repr

/-- getDownloadStatus (lines 521-557), restricted to the fields the claims
mention (the formatted speed/eta strings and per-file echo are omitted). -/
def getDownloadStatus (job : DownloadJob) : DownloadStatusView :=
  { id := job.id
    repo := job.repo
    status := job.status
    progress := job.progress
    bytesDownloaded := sumDownloaded job.files
    totalBytes := sumSize job.files
    error := job.error }

/-- Write modes of createWriteStream: flag a (append) when resuming, flag w
otherwise. -/
inductive WriteMode
  | append
  | truncate
deriving DecidableEq, Repr

/-- What downloadFile decides to do before reading the body: return early
without any fetch (skipped), or fetch with an optional Range start offset and
a write mode. -/
inductive RequestPlan
  | skip (size : Nat)
  | fetch (range : Option Nat) (mode : WriteMode)
deriving DecidableEq, Repr

/-- Whether a files-map entry is marked complete (undefined entries are
falsy). -/
def recComplete (rec : Option FileProgress) : Bool :=
  (rec.map FileProgress.complete).getD false

/-- The pre-fetch decision logic of downloadFile (lines 168-196 and 233-235):
startPosition is the on-disk size when the destination exists; an existing
destination whose record is marked complete is returned as skipped with no
fetch; otherwise a GET is issued carrying Range bytes=startPosition- exactly
when startPosition is positive, writing in append mode in that case and
truncate mode otherwise. -/
def downloadFilePlan (fileOnDisk : Bool) (fileSize : Nat)
    (rec : Option FileProgress) : RequestPlan :=
  let startPosition := if fileOnDisk then fileSize else 0
  if fileOnDisk && recComplete rec then RequestPlan.skip startPosition
  else
    RequestPlan.fetch
      (if 0 < startPosition then some startPosition else none)
      (if 0 < startPosition then WriteMode.append else WriteMode.truncate)

/-- How downloadFile reacts to the response status (lines 199-225): 416 is
treated as the file being complete (early return, no error); a status that is
neither ok (2xx) nor 206 is an HTTP error; otherwise the body is read, with
the total size taken from the Content-Range suffix when present, else
Content-Length, else 0. -/
inductive ResponseOutcome
  | treatComplete
  | httpError (status : Nat)
  | proceed (totalBytes : Nat)
deriving DecidableEq, Repr

/-- Response-status handling of downloadFile (lines 199-225). -/
def handleResponseStatus (status : Nat) (contentLength : Option Nat)
    (contentRangeTotal : Option Nat) : ResponseOutcome :=
  if status = 416 then ResponseOutcome.treatComplete
  else if ¬(200 ≤ status ∧ status < 300) ∧ status ≠ 206 then
    ResponseOutcome.httpError status
  else
    ResponseOutcome.proceed
      (match contentRangeTotal with
       | some t => t
       | none => contentLength.getD 0)

/-- resumeDownload (lines 622-659) as a state transform paired with the
thrown error message, if any: a non-paused job throws; a paused job whose
files are all complete is set completed and returns; a paused job with any
incomplete file is set downloading with a fresh abort controller and then
throws that resume needs the original download parameters. -/
def resumeDownload (job : DownloadJob) : DownloadJob × Option String :=
  if job.status ≠ DownloadStatus.paused then
    (job, some "Can only resume paused downloads")
  else if (job.files.filter fun e => !e.2.complete).isEmpty then
    ({ job with status := DownloadStatus.completed }, none)
  else
    ({ job with status := DownloadStatus.downloading, aborted := false },
     some "Resume requires original download parameters. Please restart the download.")

/-- cancelDownload (lines 563-591): cancelling a completed job throws without
touching anything; otherwise the in-flight request is aborted, the status
becomes cancelled, and unlink is attempted exactly for the destination paths
whose record is not marked complete and which exist on disk.  The result
pairs the new job state with the list of paths deleted. -/
def cancelDownload (job : DownloadJob) (onDisk : String → Bool) :
    Except String (DownloadJob × List String) :=
  if job.status = DownloadStatus.completed then
    Except.error "Cannot cancel completed download"
  else
    Except.ok
      ({ job with status := DownloadStatus.cancelled, aborted := true },
       (job.files.filter fun e => !e.2.complete && onDisk e.1).map Prod.fst)

/-! ### HuggingFace registry metadata (modelDownloader.js lines 20-138) -/

/-- One entry of the registry metadata's siblings array. -/
structure Sibling where
  rfilename : String
deriving DecidableEq, Repr

/-- Registry metadata JSON, restricted to the siblings field the two fetch
functions consume; siblings is optional (`data.siblings || []`). -/
structure ModelMetadata where
  siblings : Option (List Sibling)
deriving DecidableEq, Repr

/-- A fetched registry response: HTTP status and decoded JSON body. -/
structure FetchResponse where
  status : Nat
  body : ModelMetadata
deriving DecidableEq, Repr

/-- response.ok: status in the 2xx range. -/
def respOk (r : FetchResponse) : Bool :=
  200 ≤ r.status && r.status < 300

/-- HF_API_BASE (line 21). -/
def hfApiBase : String := "https://huggingface.co"

/-- HF_API_MODELS (line 22). -/
def hfApiModels : String := hfApiBase ++ "/api/models"

/-- The URL getHuggingFaceModelInfo fetches (line 93); encode abstracts the
encodeURIComponent builtin both functions call. -/
def modelInfoUrl (encode : String → String) (repo : String) : String :=
  hfApiModels ++ "/" ++ encode repo

/-- The URL getHuggingFaceModelFiles fetches (line 115). -/
def modelFilesUrl (encode : String → String) (repo : String) : String :=
  hfApiBase ++ "/api/models/" ++ encode repo

/-- getHuggingFaceModelInfo (lines 92-109) over a functional fetch
environment: non-ok responses throw (404 with a dedicated message), ok
responses return the decoded metadata. -/
def getHuggingFaceModelInfo (encode : String → String)
    (fetchEnv : String → FetchResponse) (repo : String) :
    Except String ModelMetadata :=
  let response := fetchEnv (modelInfoUrl encode repo)
  if respOk response then Except.ok response.body
  else if response.status = 404 then
    Except.error ("Model repository not found: " ++ repo)
  else
    Except.error ("Failed to fetch model info: " ++ toString response.status)

/-- getHuggingFaceModelFiles (lines 114-131) over the same fetch environment:
non-ok responses throw, ok responses return the siblings array, defaulting to
the empty list. -/
def getHuggingFaceModelFiles (encode : String → String)
    (fetchEnv : String → FetchResponse) (repo : String) :
    Except String (List Sibling) :=
  let response := fetchEnv (modelFilesUrl encode repo)
  if respOk response then Except.ok (response.body.siblings.getD [])
  else
    Except.error ("Failed to fetch model files: " ++ toString response.status)

/-! ### Effective sample-steps resolution (spec-modelled)

The code deciding claim C1 — cliHandler.js buildCommand and the
parameter-resolving queueProcessor version exercised by
tests/steps-parameter.test.js — is not under src/; only its tests are.  The
definitions below are modelled from the spec and those tests. -/

/-- Modelled from the spec: the queue processor's effective-parameter rule
(spec section 4.4 step 4, queueProcessor.js line 350 per the tests):
`job.sample_steps ?? modelParams.sample_steps ?? undefined`. -/
def effectiveSampleSteps (user modelDefault : Option Nat) : Option Nat :=
  match user with
  | some u => some u
  | none => modelDefault

/-- Modelled from the spec and tests/steps-parameter.test.js: the CLI
handler's quality-to-steps mapping maps quality medium to 20 steps; the tests
pin no other quality value. -/
def qualityStepsMap (q : String) : Option Nat :=
  if q = "medium" then some 20 else none

/-- Modelled from the spec (section 4.4 step 7, CLI path): `--steps` comes
from the resolved sample_steps when present, else from the quality-to-steps
mapping when quality is set, else the flag is omitted. -/
def cliStepsArg (qmap : String → Option Nat) (sampleSteps : Option Nat)
    (quality : Option String) : Option Nat :=
  match sampleSteps with
  | some s => some s
  | none =>
      match quality with
      | some q => qmap q
      | none => none

/-- Modelled from the spec (engine request encoding): the HTTP body's steps
field is the resolved sample_steps when present, else absent
(queueProcessor.js line 494 per the tests). -/
def httpStepsField (sampleSteps : Option Nat) : Option Nat :=
  sampleSteps

/-- The steps value carried by the dispatched engine request for a job: the
user/model-default resolution feeds the CLI flag or the HTTP body field
depending on the execution mode. -/
def dispatchedSteps (qmap : String → Option Nat) (isCli : Bool)
    (user modelDefault : Option Nat) (quality : Option String) : Option Nat :=
  let eff := effectiveSampleSteps user modelDefault
  if isCli then cliStepsArg qmap eff quality else httpStepsField eff

/-! ### Concrete fixtures used by counterexamples and witnesses -/

/-- A successful engine response with one image payload. -/
def rOk : EngineResponse := { data := ["payload"] }

/-- A pending generate job. -/
def jGen : Job :=
  { id := 1, jobType := "generate", createdAt := 0,
    status := JobStatus.pending, progress := none, error := none }

/-- A pending edit job. -/
def jEdit : Job :=
  { id := 2, jobType := "edit", createdAt := 1,
    status := JobStatus.pending, progress := none, error := none }

/-- A pending upscale job. -/
def jUp : Job :=
  { id := 3, jobType := "upscale", createdAt := 2,
    status := JobStatus.pending, progress := none, error := none }

/-- An idle processor state over a store holding two pending jobs. -/
def st0 : ProcState :=
  { jobs := [jGen, jEdit], isProcessing := false, currentJob := none }

/-- The state after the first claim segment on st0 (job 1 in flight). -/
def stMid : ProcState := step st0 (PAction.claim 0)

/-- An interleaving of two processor loops (0 and 1) draining st0: loop 0
claims job 1, loop 1 finds the flag set, job 1 completes, loop 1 claims job
2, job 2 fails, loop 0 finds nothing pending. -/
def actsW : List PAction :=
  [PAction.claim 0, PAction.claim 1, PAction.finish 1 (Except.ok ()),
   PAction.claim 1, PAction.finish 2 (Except.error "boom"), PAction.claim 0]

/-- A file record marked complete. -/
def fileDone : FileProgress :=
  { size := 10, downloaded := 10, progress := 100,
    speed := none, eta := none, complete := true }

/-- A file record not yet complete. -/
def fileTodo : FileProgress :=
  { size := 10, downloaded := 4, progress := 40,
    speed := none, eta := none, complete := false }

/-- A fresh downloading job tracking one file. -/
def dJob0 : DownloadJob :=
  { id := "d0", repo := "r", status := DownloadStatus.downloading,
    files := [("f", { size := 0, downloaded := 0, progress := 0,
                      speed := none, eta := none, complete := false })],
    progress := 0, bytesDownloaded := 0, totalBytes := 0,
    speed := 0, eta := 0, error := none, aborted := true }

/-- A paused job with one incomplete file. -/
def dPaused : DownloadJob :=
  { id := "d1", repo := "r", status := DownloadStatus.paused,
    files := [("a", fileDone), ("b", fileTodo)],
    progress := 70, bytesDownloaded := 14, totalBytes := 20,
    speed := 0, eta := 0, error := none, aborted := true }

/-- A paused job whose files are all complete. -/
def dPausedDone : DownloadJob :=
  { id := "d2", repo := "r", status := DownloadStatus.paused,
    files := [("a", fileDone)],
    progress := 100, bytesDownloaded := 10, totalBytes := 10,
    speed := 0, eta := 0, error := none, aborted := true }

/-- A downloading job with one complete and one incomplete file. -/
def dMixed : DownloadJob :=
  { id := "d3", repo := "r", status := DownloadStatus.downloading,
    files := [("a", fileDone), ("b", fileTodo)],
    progress := 70, bytesDownloaded := 14, totalBytes := 20,
    speed := 0, eta := 0, error := none, aborted := false }

/-- dMixed after cancellation. -/
def dMixedCancelled : DownloadJob :=
  { dMixed with status := DownloadStatus.cancelled, aborted := true }

/-- A completed download job. -/
def dDone : DownloadJob :=
  { id := "d4", repo := "r", status := DownloadStatus.completed,
    files := [("a", fileDone)],
    progress := 100, bytesDownloaded := 10, totalBytes := 10,
    speed := 0, eta := 0, error := none, aborted := false }

/-- Registry metadata without a siblings field. -/
def metaEmpty : ModelMetadata := { siblings := none }

/-- A 200 registry response whose metadata lacks siblings. -/
def fetchOkEmpty : FetchResponse := { status := 200, body := metaEmpty }

/-! ### Claim C1: effective sample-steps resolution -/

/-- C1 counterexample: with no user sample_steps and no model default, a CLI
job whose quality is medium is dispatched with steps 20 via the
quality-to-steps mapping, although the claim says that in that case no steps
field appears at all. -/
theorem steps_fallback_counterexample :
    dispatchedSteps qualityStepsMap true none none (some "medium") = some 20 ∧
    (some 20 : Option Nat) ≠ none := by
  decide

/-- C1 amended: the user-supplied sample_steps wins; else the model default;
else the HTTP body carries no steps field, while the CLI path takes `--steps`
from the quality-to-steps mapping when quality is set and omits the flag
otherwise — so 20 can only reach the request as a user value, a model default
or the mapping's image of the supplied quality, never as an unconditional
fallback. -/
theorem steps_fallback_amended (qmap : String → Option Nat) (isCli : Bool)
    (user modelDefault : Option Nat) (quality : Option String) :
    (∀ u, user = some u →
        dispatchedSteps qmap isCli user modelDefault quality = some u)
  ∧ (user = none → ∀ d, modelDefault = some d →
        dispatchedSteps qmap isCli user modelDefault quality = some d)
  ∧ (user = none → modelDefault = none → isCli = false →
        dispatchedSteps qmap isCli user modelDefault quality = none)
  ∧ (user = none → modelDefault = none → isCli = true →
        dispatchedSteps qmap isCli user modelDefault quality =
          (match quality with
           | some q => qmap q
           | none => none)) := by
  refine ⟨?_, ?_, ?_, ?_⟩
  · intro u hu
    subst hu
    cases isCli <;>
      simp [dispatchedSteps, effectiveSampleSteps, cliStepsArg, httpStepsField]
  · intro hu d hd
    subst hu; subst hd
    cases isCli <;>
      simp [dispatchedSteps, effectiveSampleSteps, cliStepsArg, httpStepsField]
  · intro hu hd hc
    subst hu; subst hd; subst hc
    simp [dispatchedSteps, effectiveSampleSteps, httpStepsField]
  · intro hu hd hc
    subst hu; subst hd; subst hc
    cases quality <;>
      simp [dispatchedSteps, effectiveSampleSteps, cliStepsArg]

/-- C1 amended witness at concrete inputs: a model default of 9 is used when
the user supplies nothing. -/
theorem steps_fallback_amended_witness :
    dispatchedSteps qualityStepsMap false none (some 9) none = some 9 :=
  (steps_fallback_amended qualityStepsMap false none (some 9) none).2.1 rfl 9 rfl

/-! ### Claim C4: download aggregate accounting -/

/-- C4 counterexample: after a progress update with one byte of two
downloaded, the stored aggregate progress is 50 — a percentage — not the
ratio 1/2 that the claim's equation demands. -/
theorem download_progress_scale_counterexample :
    (progressUpdateStep dJob0 "f" 2 1 0 0 1000).bytesDownloaded = 1
  ∧ (progressUpdateStep dJob0 "f" 2 1 0 0 1000).totalBytes = 2
  ∧ (progressUpdateStep dJob0 "f" 2 1 0 0 1000).progress = 50
  ∧ (progressUpdateStep dJob0 "f" 2 1 0 0 1000).progress ≠
      ((progressUpdateStep dJob0 "f" 2 1 0 0 1000).bytesDownloaded : ℚ) /
      ((progressUpdateStep dJob0 "f" 2 1 0 0 1000).totalBytes : ℚ) := by
  refine ⟨rfl, rfl, ?_, ?_⟩ <;>
    norm_num [progressUpdateStep, calculateProgress, dJob0, setFile,
      sumDownloaded, sumSize]

/-- C4 amended: at every progress update the record's bytes_downloaded and
total_bytes equal the sums of the per-file counters and its progress equals
100 times bytes_downloaded over total_bytes (a percentage) when total_bytes
is positive, else 0; every status query recomputes bytes_downloaded and
total_bytes as those sums while echoing the stored progress percentage. -/
theorem download_aggregate_amended (job : DownloadJob) (path : String)
    (tb bd lb : Nat) (lt now : ℚ) :
    (progressUpdateStep job path tb bd lb lt now).bytesDownloaded =
      sumDownloaded (progressUpdateStep job path tb bd lb lt now).files
  ∧ (progressUpdateStep job path tb bd lb lt now).totalBytes =
      sumSize (progressUpdateStep job path tb bd lb lt now).files
  ∧ (progressUpdateStep job path tb bd lb lt now).progress =
      (if 0 < (progressUpdateStep job path tb bd lb lt now).totalBytes then
        (((progressUpdateStep job path tb bd lb lt now).bytesDownloaded : ℚ) /
          ((progressUpdateStep job path tb bd lb lt now).totalBytes : ℚ)) * 100
       else 0)
  ∧ (getDownloadStatus job).bytesDownloaded = sumDownloaded job.files
  ∧ (getDownloadStatus job).totalBytes = sumSize job.files
  ∧ (getDownloadStatus job).progress = job.progress := by
  refine ⟨rfl, rfl, ?_, rfl, rfl, rfl⟩
  simp only [progressUpdateStep]

/-! ### Claim C5: per-file resume behaviour -/

/-- C5 counterexample: a file whose record is marked complete but whose
destination is missing from disk is not skipped — downloadFile issues a full
GET (no Range header, truncate mode) — although the claim says a
complete-marked file is skipped without any request. -/
theorem download_skip_counterexample :
    downloadFilePlan false 0 (some fileDone) =
      RequestPlan.fetch none WriteMode.truncate
  ∧ RequestPlan.fetch none WriteMode.truncate ≠ RequestPlan.skip 0 := by
  decide

/-- C5 amended: when the destination exists with positive size and the record
is not marked complete, the GET carries Range bytes=size- and the body is
appended; when the destination exists and the record is marked complete, the
file is skipped without any request; a 416 response is treated as the file
being complete rather than an error. -/
theorem download_resume_amended (fileSize : Nat) (rec : Option FileProgress)
    (cl crt : Option Nat) :
    (0 < fileSize → recComplete rec = false →
       downloadFilePlan true fileSize rec =
         RequestPlan.fetch (some fileSize) WriteMode.append)
  ∧ (recComplete rec = true →
       downloadFilePlan true fileSize rec = RequestPlan.skip fileSize)
  ∧ handleResponseStatus 416 cl crt = ResponseOutcome.treatComplete := by
  refine ⟨?_, ?_, ?_⟩
  · intro hs hc
    simp [downloadFilePlan, hc, hs]
  · intro hc
    simp [downloadFilePlan, hc]
  · simp [handleResponseStatus]

/-- C5 amended witness at concrete inputs: an existing 5-byte partial file
resumes with Range bytes=5- in append mode, an existing complete-marked file
is skipped, and 416 is treated as complete. -/
theorem download_resume_amended_witness :
    downloadFilePlan true 5 none = RequestPlan.fetch (some 5) WriteMode.append
  ∧ downloadFilePlan true 5 (some fileDone) = RequestPlan.skip 5
  ∧ handleResponseStatus 416 none none = ResponseOutcome.treatComplete := by
  have h1 := download_resume_amended 5 none none none
  have h2 := download_resume_amended 5 (some fileDone) none none
  exact ⟨h1.1 (by decide) (by decide), h2.2.1 (by decide), h1.2.2⟩

/-! ### Claim C6: resumeDownload is incomplete -/

/-- C6: for a paused download with at least one incomplete file,
resumeDownload throws the resume-requires-original-parameters error and
transfers nothing (the files map and byte counter are untouched); only when
every file is already complete does it return normally after setting the job
status to completed. -/
theorem resume_download_incomplete (job : DownloadJob)
    (hp : job.status = DownloadStatus.paused) :
    ((∃ e ∈ job.files, e.2.complete = false) →
        (resumeDownload job).2 =
          some "Resume requires original download parameters. Please restart the download."
      ∧ (resumeDownload job).1.files = job.files
      ∧ (resumeDownload job).1.bytesDownloaded = job.bytesDownloaded)
  ∧ ((∀ e ∈ job.files, e.2.complete = true) →
        (resumeDownload job).2 = none
      ∧ (resumeDownload job).1.status = DownloadStatus.completed) := by
  constructor
  · rintro ⟨e, he, hc⟩
    have hmemf : e ∈ job.files.filter fun x => !x.2.complete :=
      List.mem_filter.2 ⟨he, by rw [hc]; rfl⟩
    have hne : ((job.files.filter fun x => !x.2.complete).isEmpty) = false := by
      cases hfe : (job.files.filter fun x => !x.2.complete).isEmpty
      · rfl
      · rw [List.isEmpty_eq_true] at hfe
        rw [hfe] at hmemf
        cases hmemf
    simp [resumeDownload, hp, hne]
  · intro hall
    have hemp : ((job.files.filter fun x => !x.2.complete).isEmpty) = true := by
      rw [List.isEmpty_eq_true]
      refine List.filter_eq_nil_iff.2 ?_
      intro a ha
      simp [hall a ha]
    simp [resumeDownload, hp, hemp]

/-- C6 witness at concrete inputs: resuming a paused job with an incomplete
file throws, resuming a paused job whose files are all complete completes
it. -/
theorem resume_download_incomplete_witness :
    (resumeDownload dPaused).2 =
      some "Resume requires original download parameters. Please restart the download."
  ∧ (resumeDownload dPausedDone).1.status = DownloadStatus.completed := by
  have h1 := resume_download_incomplete dPaused rfl
  have h2 := resume_download_incomplete dPausedDone rfl
  exact ⟨(h1.1 (by decide)).1, (h2.2 (by decide)).2⟩

/-! ### Claim C9: the two registry fetchers are one operation -/

/-- C9: getHuggingFaceModelInfo and getHuggingFaceModelFiles construct the
same registry URL for every repo, and whenever the former returns metadata,
the latter returns exactly its siblings field, defaulting to the empty
list. -/
theorem hf_info_files_one_operation (encode : String → String)
    (fetchEnv : String → FetchResponse) (repo : String) :
    modelInfoUrl encode repo = modelFilesUrl encode repo
  ∧ (∀ m, getHuggingFaceModelInfo encode fetchEnv repo = Except.ok m →
       getHuggingFaceModelFiles encode fetchEnv repo =
         Except.ok (m.siblings.getD [])) := by
  have h0 : hfApiModels ++ "/" = hfApiBase ++ "/api/models/" := by decide
  have hurl : modelInfoUrl encode repo = modelFilesUrl encode repo := by
    show hfApiModels ++ "/" ++ encode repo =
      hfApiBase ++ "/api/models/" ++ encode repo
    rw [h0]
  refine ⟨hurl, ?_⟩
  intro m hm
  simp only [getHuggingFaceModelInfo] at hm
  simp only [getHuggingFaceModelFiles, ← hurl]
  cases hok : respOk (fetchEnv (modelInfoUrl encode repo)) with
  | true =>
      rw [hok] at hm
      simp only [if_pos] at hm
      simp at hm
      simp [hok, hm]
  | false =>
      rw [hok] at hm
      by_cases h404 : (fetchEnv (modelInfoUrl encode repo)).status = 404 <;>
        simp [h404] at hm

/-- C9 witness at concrete inputs: on a 200 response without a siblings
field, the files fetcher returns the empty list. -/
theorem hf_info_files_one_operation_witness :
    getHuggingFaceModelFiles (fun s => s) (fun _ => fetchOkEmpty) "org/repo" =
      Except.ok [] := by
  have h := hf_info_files_one_operation (fun s => s) (fun _ => fetchOkEmpty)
    "org/repo"
  have h2 := h.2 metaEmpty (by rfl)
  simpa [metaEmpty] using h2

/-! ### Claim C10: cancellation preserves finished work -/

/-- Association lists with nodup keys determine values: two entries sharing a
key are the same entry. -/
theorem nodup_keys_value_eq {l : List (String × FileProgress)}
    (h : (l.map Prod.fst).Nodup) {p : String} {f g : FileProgress}
    (hf : (p, f) ∈ l) (hg : (p, g) ∈ l) : f = g := by
  induction l with
  | nil => cases hf
  | cons a rest ih =>
      obtain ⟨ha, hrest⟩ :
          (∀ x : FileProgress, (a.1, x) ∉ rest) ∧ (rest.map Prod.fst).Nodup := by
        simpa using h
      cases hf with
      | head =>
          cases hg with
          | head => rfl
          | tail _ hg2 => exact absurd hg2 (ha g)
      | tail _ hf2 =>
          cases hg with
          | head => exact absurd hf2 (ha f)
          | tail _ hg2 => exact ih hrest hf2 hg2

/-- C10: cancelDownload on a completed job throws without touching anything;
on any other job it attempts deletion exactly of on-disk destination paths
whose record is not marked complete, so a complete-marked file is never
unlinked, and the files map itself is preserved while the status becomes
cancelled. -/
theorem cancel_preserves_complete (job : DownloadJob) (onDisk : String → Bool)
    (hkeys : (job.files.map Prod.fst).Nodup) :
    (job.status = DownloadStatus.completed →
       cancelDownload job onDisk = Except.error "Cannot cancel completed download")
  ∧ (∀ s del, cancelDownload job onDisk = Except.ok (s, del) →
       (∀ p ∈ del, onDisk p = true ∧
          ∃ f, (p, f) ∈ job.files ∧ f.complete = false)
     ∧ (∀ p f, (p, f) ∈ job.files → f.complete = true → p ∉ del)
     ∧ s.files = job.files ∧ s.status = DownloadStatus.cancelled) := by
  constructor
  · intro hc
    simp [cancelDownload, hc]
  · intro s del hok
    by_cases hc : job.status = DownloadStatus.completed
    · simp [cancelDownload, hc] at hok
    · rw [cancelDownload, if_neg hc] at hok
      have hs : s = { job with status := DownloadStatus.cancelled, aborted := true } := by
        cases hok; rfl
      have hdel : del = (job.files.filter fun e => !e.2.complete && onDisk e.1).map
          Prod.fst := by
        cases hok; rfl
      subst hs; subst hdel
      refine ⟨?_, ?_, rfl, rfl⟩
      · intro p hp
        rcases List.mem_map.1 hp with ⟨e, he, hpe⟩
        rcases List.mem_filter.1 he with ⟨hmem, hcond⟩
        rw [Bool.and_eq_true] at hcond
        rcases hcond with ⟨hnc, hdisk⟩
        subst hpe
        exact ⟨hdisk, e.2, by simpa using hmem, by simpa using hnc⟩
      · intro p f hmem hcomp hp
        rcases List.mem_map.1 hp with ⟨e, he, hpe⟩
        rcases List.mem_filter.1 he with ⟨hmem2, hcond⟩
        rw [Bool.and_eq_true] at hcond
        rcases hcond with ⟨hnc, hdisk2⟩
        have he2 : (p, e.2) ∈ job.files := by
          rcases e with ⟨q, g⟩
          cases hpe
          simpa using hmem2
        have : f = e.2 := nodup_keys_value_eq hkeys hmem he2
        subst this
        simp [hcomp] at hnc

/-- C10 witness at concrete inputs: cancelling a mixed job deletes only the
incomplete file's path (the complete file a is untouched), and cancelling a
completed job throws. -/
theorem cancel_preserves_complete_witness :
    ("a" : String) ∉ (["b"] : List String)
  ∧ cancelDownload dDone (fun _ => true) =
      Except.error "Cannot cancel completed download" := by
  have hm := cancel_preserves_complete dMixed (fun _ => true) (by decide)
  have hd := cancel_preserves_complete dDone (fun _ => true) (by decide)
  refine ⟨?_, hd.1 rfl⟩
  have h := (hm.2 dMixedCancelled ["b"] (by rfl)).2.1 "a" fileDone
    (by simp [dMixed]) rfl
  exact h

/-! ### Trace computation lemmas shared by the progress and dispatch claims -/

/-- publishedProgress distributes over trace concatenation. -/
theorem publishedProgress_append (t1 t2 : List Effect) :
    publishedProgress (t1 ++ t2) =
      publishedProgress t1 ++ publishedProgress t2 := by
  simp [publishedProgress, List.filterMap_append]

/-- Image-insert effects publish no progress. -/
theorem publishedProgress_createImage (l : List Nat) :
    publishedProgress (l.map Effect.createImage) = [] := by
  induction l with
  | nil => rfl
  | cons a t ih => simp [publishedProgress, List.filterMap_cons]

/-- A progress effect publishes its value. -/
theorem publishedProgress_cons_progress (i : Nat) (p : ℚ) (t : List Effect) :
    publishedProgress (Effect.setProgress i p :: t) =
      p :: publishedProgress t := rfl

/-- A completed status publishes the final progress 1. -/
theorem publishedProgress_cons_completed (i : Nat) (m : Option String)
    (t : List Effect) :
    publishedProgress (Effect.setStatus i JobStatus.completed m :: t) =
      1 :: publishedProgress t := rfl

/-- A processing status publishes nothing. -/
theorem publishedProgress_cons_processing (i : Nat) (m : Option String)
    (t : List Effect) :
    publishedProgress (Effect.setStatus i JobStatus.processing m :: t) =
      publishedProgress t := rfl

/-- A failed status publishes nothing. -/
theorem publishedProgress_cons_failed (i : Nat) (m : Option String)
    (t : List Effect) :
    publishedProgress (Effect.setStatus i JobStatus.failed m :: t) =
      publishedProgress t := rfl

/-- A generation-record insert publishes nothing. -/
theorem publishedProgress_cons_gen (k : String) (t : List Effect) :
    publishedProgress (Effect.createGeneration k :: t) =
      publishedProgress t := rfl

/-- The empty trace publishes nothing. -/
theorem publishedProgress_nil : publishedProgress [] = [] := rfl

/-- The empty trace records no status. -/
theorem statusUpdates_nil (jid : Nat) : statusUpdates [] jid = [] := rfl

/-- The empty trace records no error slot. -/
theorem errorUpdates_nil (jid : Nat) : errorUpdates [] jid = [] := rfl

/-- statusUpdates distributes over trace concatenation. -/
theorem statusUpdates_append (t1 t2 : List Effect) (jid : Nat) :
    statusUpdates (t1 ++ t2) jid =
      statusUpdates t1 jid ++ statusUpdates t2 jid := by
  simp [statusUpdates, List.filterMap_append]

/-- Image-insert effects record no status. -/
theorem statusUpdates_createImage (l : List Nat) (jid : Nat) :
    statusUpdates (l.map Effect.createImage) jid = [] := by
  induction l with
  | nil => rfl
  | cons a t ih => simp [statusUpdates, List.filterMap_cons]

/-- A status effect for the queried job id is recorded. -/
theorem statusUpdates_cons_self (jid : Nat) (s : JobStatus) (m : Option String)
    (t : List Effect) :
    statusUpdates (Effect.setStatus jid s m :: t) jid =
      s :: statusUpdates t jid := by
  simp [statusUpdates, List.filterMap_cons]

/-- A progress effect records no status. -/
theorem statusUpdates_cons_progress (i jid : Nat) (p : ℚ) (t : List Effect) :
    statusUpdates (Effect.setProgress i p :: t) jid =
      statusUpdates t jid := rfl

/-- A generation-record insert records no status. -/
theorem statusUpdates_cons_gen (k : String) (jid : Nat) (t : List Effect) :
    statusUpdates (Effect.createGeneration k :: t) jid =
      statusUpdates t jid := rfl

/-- errorUpdates distributes over trace concatenation. -/
theorem errorUpdates_append (t1 t2 : List Effect) (jid : Nat) :
    errorUpdates (t1 ++ t2) jid =
      errorUpdates t1 jid ++ errorUpdates t2 jid := by
  simp [errorUpdates, List.filterMap_append]

/-- Image-insert effects record no error slot. -/
theorem errorUpdates_createImage (l : List Nat) (jid : Nat) :
    errorUpdates (l.map Effect.createImage) jid = [] := by
  induction l with
  | nil => rfl
  | cons a t ih => simp [errorUpdates, List.filterMap_cons]

/-- A status effect for the queried job id records its error slot. -/
theorem errorUpdates_cons_self (jid : Nat) (s : JobStatus) (m : Option String)
    (t : List Effect) :
    errorUpdates (Effect.setStatus jid s m :: t) jid =
      m :: errorUpdates t jid := by
  simp [errorUpdates, List.filterMap_cons]

/-- A progress effect records no error slot. -/
theorem errorUpdates_cons_progress (i jid : Nat) (p : ℚ) (t : List Effect) :
    errorUpdates (Effect.setProgress i p :: t) jid =
      errorUpdates t jid := rfl

/-- A generation-record insert records no error slot. -/
theorem errorUpdates_cons_gen (k : String) (jid : Nat) (t : List Effect) :
    errorUpdates (Effect.createGeneration k :: t) jid =
      errorUpdates t jid := rfl

/-- Trace facts for a generate job: on success it publishes
0.1, 0.3, 0.7, 0.9, 1.0 and ends completed; on an engine error it publishes
0.1, 0.3 and ends failed. -/
theorem trace_facts_generate (j : Job) (hg : j.jobType = "generate") :
    (∀ r : EngineResponse,
        publishedProgress (processQueueTrace j (Except.ok r)) =
          [1/10, 3/10, 7/10, 9/10, 1]
      ∧ finalStatus (processQueueTrace j (Except.ok r)) j.id =
          some JobStatus.completed)
  ∧ (∀ e : String,
        publishedProgress (processQueueTrace j (Except.error e)) = [1/10, 3/10]
      ∧ finalStatus (processQueueTrace j (Except.error e)) j.id =
          some JobStatus.failed) := by
  constructor <;> intro x <;> constructor <;>
    simp [processQueueTrace, dispatchJob, hg, processGenerateJob, finalStatus,
      publishedProgress_append, publishedProgress_createImage,
      publishedProgress_cons_progress, publishedProgress_cons_completed,
      publishedProgress_cons_processing, publishedProgress_cons_failed,
      publishedProgress_cons_gen,
      statusUpdates_append, statusUpdates_createImage, statusUpdates_cons_self,
      statusUpdates_cons_progress, statusUpdates_cons_gen,
      publishedProgress_nil, statusUpdates_nil, List.getLast?]

/-- Trace facts for an edit job: no 0.1 update — on success it publishes
0.3, 0.7, 0.9, 1.0 and ends completed; on an engine error it publishes 0.3
and ends failed. -/
theorem trace_facts_edit (j : Job) (he : j.jobType = "edit") :
    (∀ r : EngineResponse,
        publishedProgress (processQueueTrace j (Except.ok r)) =
          [3/10, 7/10, 9/10, 1]
      ∧ finalStatus (processQueueTrace j (Except.ok r)) j.id =
          some JobStatus.completed)
  ∧ (∀ e : String,
        publishedProgress (processQueueTrace j (Except.error e)) = [3/10]
      ∧ finalStatus (processQueueTrace j (Except.error e)) j.id =
          some JobStatus.failed) := by
  constructor <;> intro x <;> constructor <;>
    simp [processQueueTrace, dispatchJob, he, processEditJob, finalStatus,
      publishedProgress_append, publishedProgress_createImage,
      publishedProgress_cons_progress, publishedProgress_cons_completed,
      publishedProgress_cons_processing, publishedProgress_cons_failed,
      publishedProgress_cons_gen,
      statusUpdates_append, statusUpdates_createImage, statusUpdates_cons_self,
      statusUpdates_cons_progress, statusUpdates_cons_gen,
      publishedProgress_nil, statusUpdates_nil, List.getLast?]

/-- Trace facts for a variation job: like edit, the first progress update is
0.3. -/
theorem trace_facts_variation (j : Job) (hv : j.jobType = "variation") :
    (∀ r : EngineResponse,
        publishedProgress (processQueueTrace j (Except.ok r)) =
          [3/10, 7/10, 9/10, 1]
      ∧ finalStatus (processQueueTrace j (Except.ok r)) j.id =
          some JobStatus.completed)
  ∧ (∀ e : String,
        publishedProgress (processQueueTrace j (Except.error e)) = [3/10]
      ∧ finalStatus (processQueueTrace j (Except.error e)) j.id =
          some JobStatus.failed) := by
  constructor <;> intro x <;> constructor <;>
    simp [processQueueTrace, dispatchJob, hv, processVariationJob, finalStatus,
      publishedProgress_append, publishedProgress_createImage,
      publishedProgress_cons_progress, publishedProgress_cons_completed,
      publishedProgress_cons_processing, publishedProgress_cons_failed,
      publishedProgress_cons_gen,
      statusUpdates_append, statusUpdates_createImage, statusUpdates_cons_self,
      statusUpdates_cons_progress, statusUpdates_cons_gen,
      publishedProgress_nil, statusUpdates_nil, List.getLast?]

/-- Trace facts for any other job type: the dispatch switch throws before any
handler effect, so no progress is published and the job ends failed with the
unknown-type message — for any engine outcome. -/
theorem trace_facts_other (j : Job) (h1 : j.jobType ≠ "generate")
    (h2 : j.jobType ≠ "edit") (h3 : j.jobType ≠ "variation")
    (res : Except String EngineResponse) :
    publishedProgress (processQueueTrace j res) = []
  ∧ finalStatus (processQueueTrace j res) j.id = some JobStatus.failed
  ∧ finalError (processQueueTrace j res) j.id =
      some ("Unknown job type: " ++ j.jobType) := by
  refine ⟨?_, ?_, ?_⟩ <;>
    simp [processQueueTrace, dispatchJob, h1, h2, h3, finalStatus, finalError,
      publishedProgress_append, publishedProgress_cons_processing,
      publishedProgress_cons_failed,
      statusUpdates_append, statusUpdates_cons_self,
      errorUpdates_append, errorUpdates_cons_self,
      publishedProgress_nil, statusUpdates_nil, errorUpdates_nil,
      List.getLast?, Option.join]

/-! ### Claim C3: progress sequences -/

/-- C3 counterexample: an edit job publishes 0.3, 0.7, 0.9, 1.0 — the 0.1
update is missing — so its progress sequence is not the claimed
0.1, 0.3, 0.7, 0.9, 1.0. -/
theorem queue_progress_counterexample :
    publishedProgress (processQueueTrace jEdit (Except.ok rOk)) =
      [3/10, 7/10, 9/10, 1]
  ∧ publishedProgress (processQueueTrace jEdit (Except.ok rOk)) ≠
      [1/10, 3/10, 7/10, 9/10, 1] := by
  have h := ((trace_facts_edit jEdit rfl).1 rOk).1
  refine ⟨h, ?_⟩
  rw [h]
  intro hc
  have hl := congrArg List.length hc
  simp at hl

/-- C3 amended: a successfully processed generate job publishes exactly
0.1, 0.3, 0.7, 0.9, 1.0 while edit and variation jobs publish exactly
0.3, 0.7, 0.9, 1.0 (the 0.1 update is skipped); every published sequence is
monotonically non-decreasing, and a job whose final status is completed has
final published progress 1.0. -/
theorem queue_progress_amended (j : Job) (r : EngineResponse)
    (res : Except String EngineResponse) :
    publishedProgress (processQueueTrace j (Except.ok r)) =
      (if j.jobType = "generate" then [1/10, 3/10, 7/10, 9/10, 1]
       else if j.jobType = "edit" ∨ j.jobType = "variation" then
         [3/10, 7/10, 9/10, 1]
       else [])
  ∧ List.Chain' (fun a b => a ≤ b) (publishedProgress (processQueueTrace j res))
  ∧ (finalStatus (processQueueTrace j res) j.id = some JobStatus.completed →
       (publishedProgress (processQueueTrace j res)).getLast? = some 1) := by
  by_cases hg : j.jobType = "generate"
  · refine ⟨?_, ?_, ?_⟩
    · rw [((trace_facts_generate j hg).1 r).1]
      simp [hg]
    · cases res with
      | ok r2 =>
          rw [((trace_facts_generate j hg).1 r2).1]
          norm_num [List.chain'_cons, List.chain'_singleton]
      | error e =>
          rw [((trace_facts_generate j hg).2 e).1]
          norm_num [List.chain'_cons, List.chain'_singleton]
    · cases res with
      | ok r2 =>
          intro _
          rw [((trace_facts_generate j hg).1 r2).1]
          rfl
      | error e =>
          intro hc
          rw [((trace_facts_generate j hg).2 e).2] at hc
          simp at hc
  · by_cases he : j.jobType = "edit"
    · refine ⟨?_, ?_, ?_⟩
      · rw [((trace_facts_edit j he).1 r).1]
        simp [hg, he]
      · cases res with
        | ok r2 =>
            rw [((trace_facts_edit j he).1 r2).1]
            norm_num [List.chain'_cons, List.chain'_singleton]
        | error e =>
            rw [((trace_facts_edit j he).2 e).1]
            norm_num [List.chain'_cons, List.chain'_singleton]
      · cases res with
        | ok r2 =>
            intro _
            rw [((trace_facts_edit j he).1 r2).1]
            rfl
        | error e =>
            intro hc
            rw [((trace_facts_edit j he).2 e).2] at hc
            simp at hc
    · by_cases hv : j.jobType = "variation"
      · refine ⟨?_, ?_, ?_⟩
        · rw [((trace_facts_variation j hv).1 r).1]
          simp [hg, he, hv]
        · cases res with
          | ok r2 =>
              rw [((trace_facts_variation j hv).1 r2).1]
              norm_num [List.chain'_cons, List.chain'_singleton]
          | error e =>
              rw [((trace_facts_variation j hv).2 e).1]
              norm_num [List.chain'_cons, List.chain'_singleton]
        · cases res with
          | ok r2 =>
              intro _
              rw [((trace_facts_variation j hv).1 r2).1]
              rfl
          | error e =>
              intro hc
              rw [((trace_facts_variation j hv).2 e).2] at hc
              simp at hc
      · refine ⟨?_, ?_, ?_⟩
        · rw [(trace_facts_other j hg he hv (Except.ok r)).1]
          simp [hg, he, hv]
        · rw [(trace_facts_other j hg he hv res).1]
          simp
        · intro hc
          rw [(trace_facts_other j hg he hv res).2.1] at hc
          simp at hc

/-- C3 amended witness at concrete inputs: a generate job publishes the full
sequence ending in 1.0. -/
theorem queue_progress_amended_witness :
    publishedProgress (processQueueTrace jGen (Except.ok rOk)) =
      [1/10, 3/10, 7/10, 9/10, 1]
  ∧ (publishedProgress (processQueueTrace jGen (Except.ok rOk))).getLast? =
      some 1 := by
  have h := queue_progress_amended jGen rOk (Except.ok rOk)
  refine ⟨by simpa using h.1, h.2.2 (by decide)⟩

/-! ### Claim C7: job-type dispatch -/

/-- C7 counterexample: an upscale job is not dispatched to a handler — the
switch's default branch throws, so the job ends failed with the unknown-type
message instead of completed. -/
theorem queue_upscale_counterexample :
    finalStatus (processQueueTrace jUp (Except.ok rOk)) jUp.id =
      some JobStatus.failed
  ∧ finalError (processQueueTrace jUp (Except.ok rOk)) jUp.id =
      some "Unknown job type: upscale"
  ∧ some JobStatus.failed ≠ some JobStatus.completed := by
  have h := trace_facts_other jUp (by decide) (by decide) (by decide)
    (Except.ok rOk)
  refine ⟨h.2.1, ?_, by decide⟩
  rw [h.2.2]
  decide

/-- C7 amended: only the three declared handler types — generate, edit,
variation — are dispatched (ending completed on success); any other type,
upscale included, is failed with the unknown-type error message. -/
theorem queue_dispatch_amended (j : Job) (r : EngineResponse) :
    (j.jobType = "generate" ∨ j.jobType = "edit" ∨ j.jobType = "variation" →
       finalStatus (processQueueTrace j (Except.ok r)) j.id =
         some JobStatus.completed)
  ∧ (j.jobType ≠ "generate" → j.jobType ≠ "edit" → j.jobType ≠ "variation" →
       finalStatus (processQueueTrace j (Except.ok r)) j.id =
         some JobStatus.failed
     ∧ finalError (processQueueTrace j (Except.ok r)) j.id =
         some ("Unknown job type: " ++ j.jobType)) := by
  constructor
  · rintro (hg | he | hv)
    · exact ((trace_facts_generate j hg).1 r).2
    · exact ((trace_facts_edit j he).1 r).2
    · exact ((trace_facts_variation j hv).1 r).2
  · intro h1 h2 h3
    exact ⟨(trace_facts_other j h1 h2 h3 (Except.ok r)).2.1,
           (trace_facts_other j h1 h2 h3 (Except.ok r)).2.2⟩

/-- C7 amended witness at concrete inputs: a generate job ends completed. -/
theorem queue_dispatch_amended_witness :
    finalStatus (processQueueTrace jGen (Except.ok rOk)) jGen.id =
      some JobStatus.completed :=
  (queue_dispatch_amended jGen rOk).1 (Or.inl rfl)

/-! ### State-machine lemmas for the claim-atomicity and failure claims -/

/-- updateJobStatus preserves the sequence of job ids. -/
theorem updateJobStatus_map_id (jobs : List Job) (jid : Nat) (s : JobStatus)
    (err : Option String) :
    (updateJobStatus jobs jid s err).map Job.id = jobs.map Job.id := by
  unfold updateJobStatus
  rw [List.map_map]
  apply List.map_congr_left
  intro a _
  by_cases h : a.id = jid <;> simp [h]

/-- A job whose id differs from the updated one is untouched. -/
theorem mem_updateJobStatus_of_ne (jobs : List Job) (jid : Nat) (s : JobStatus)
    (err : Option String) (j : Job) (hj : j ∈ jobs) (hne : j.id ≠ jid) :
    j ∈ updateJobStatus jobs jid s err := by
  unfold updateJobStatus
  refine List.mem_map.2 ⟨j, hj, ?_⟩
  simp [hne]

/-- Membership in pendingIds unfolded. -/
theorem mem_pendingIds (jobs : List Job) (x : Nat) :
    x ∈ pendingIds jobs ↔
      ∃ j ∈ jobs, j.status = JobStatus.pending ∧ j.id = x := by
  unfold pendingIds
  simp [List.mem_filter]
  constructor
  · rintro ⟨j, ⟨hj, hp⟩, hid⟩
    exact ⟨j, hj, hp, hid⟩
  · rintro ⟨j, hj, hp, hid⟩
    exact ⟨j, ⟨hj, hp⟩, hid⟩

/-- Setting a non-pending status cannot create a pending job. -/
theorem pendingIds_updateJobStatus_subset (jobs : List Job) (jid : Nat)
    (st : JobStatus) (err : Option String) (hs : st ≠ JobStatus.pending)
    (x : Nat) (hx : x ∈ pendingIds (updateJobStatus jobs jid st err)) :
    x ∈ pendingIds jobs := by
  rw [mem_pendingIds] at hx ⊢
  rcases hx with ⟨j2, hj2, hp, hid⟩
  unfold updateJobStatus at hj2
  rcases List.mem_map.1 hj2 with ⟨j, hj, rfl⟩
  by_cases h : j.id = jid
  · rw [if_pos h] at hp
    simp at hp
    exact absurd hp hs
  · rw [if_neg h] at hp hid
    exact ⟨j, hj, hp, hid⟩

/-- After claiming a job id to processing, that id is no longer pending. -/
theorem not_mem_pendingIds_update_self (jobs : List Job) (x : Nat)
    (err : Option String) :
    x ∉ pendingIds (updateJobStatus jobs x JobStatus.processing err) := by
  rw [mem_pendingIds]
  rintro ⟨j2, hj2, hp, hid⟩
  unfold updateJobStatus at hj2
  rcases List.mem_map.1 hj2 with ⟨j, hj, rfl⟩
  by_cases h : j.id = x
  · rw [if_pos h] at hp
    simp at hp
  · rw [if_neg h] at hid
    exact h hid

/-- A pending id unaffected by an update stays pending. -/
theorem mem_pendingIds_update_other (jobs : List Job) (jid : Nat)
    (st : JobStatus) (err : Option String) (x : Nat)
    (hx : x ∈ pendingIds jobs) (hne : x ≠ jid) :
    x ∈ pendingIds (updateJobStatus jobs jid st err) := by
  rw [mem_pendingIds] at hx ⊢
  rcases hx with ⟨j, hj, hp, hid⟩
  exact ⟨j, mem_updateJobStatus_of_ne jobs jid st err j hj (by rw [hid]; exact hne),
    hp, hid⟩

/-- minByCreated returns an element of the list. -/
theorem minByCreated_mem (l : List Job) (j : Job) (h : minByCreated l = some j) :
    j ∈ l := by
  induction l with
  | nil => cases h
  | cons a t ih =>
      rw [minByCreated] at h
      split at h
      · cases h
        exact List.mem_cons_self _ _
      · rename_i k hk
        split at h
        · cases h
          exact List.mem_cons_of_mem _ (ih hk)
        · cases h
          exact List.mem_cons_self _ _

/-- getNextPendingJob returns a pending member of the store. -/
theorem getNextPendingJob_mem (jobs : List Job) (j : Job)
    (h : getNextPendingJob jobs = some j) :
    j ∈ jobs ∧ j.status = JobStatus.pending := by
  unfold getNextPendingJob at h
  have hm := minByCreated_mem _ _ h
  rcases List.mem_filter.1 hm with ⟨hj, hp⟩
  exact ⟨hj, by simpa using hp⟩

/-- A claim segment that claims nothing leaves the state unchanged. -/
theorem stepClaim_none_fst (s : ProcState) (h : (stepClaim s).2 = none) :
    (stepClaim s).1 = s := by
  unfold stepClaim at h ⊢
  by_cases hp : s.isProcessing
  · simp [hp]
  · simp only [hp, Bool.false_eq_true, if_false, if_neg] at h ⊢
    cases hg : getNextPendingJob s.jobs with
    | none => simp [hg]
    | some j => rw [hg] at h; simp at h

/-- A successful claim segment: the flag was clear, the claimed id is the
next pending job's, and the new state records the claim. -/
theorem stepClaim_some (s : ProcState) (jid : Nat)
    (h : (stepClaim s).2 = some jid) :
    s.isProcessing = false
  ∧ ∃ j, getNextPendingJob s.jobs = some j ∧ j.id = jid
      ∧ (stepClaim s).1 =
          { jobs := updateJobStatus s.jobs j.id JobStatus.processing none
            isProcessing := true
            currentJob := some j.id } := by
  unfold stepClaim at h ⊢
  by_cases hp : s.isProcessing
  · simp [hp] at h
  · refine ⟨by simpa using hp, ?_⟩
    simp only [hp, Bool.false_eq_true, if_false, if_neg] at h ⊢
    cases hg : getNextPendingJob s.jobs with
    | none => rw [hg] at h; simp at h
    | some j =>
        rw [hg] at h
        simp at h
        exact ⟨j, rfl, h, by simp [hg]⟩

/-- pendingIds never grows across a finish segment. -/
theorem pendingIds_stepFinish_subset (s : ProcState) (jid : Nat)
    (res : Except String Unit) (x : Nat)
    (hx : x ∈ pendingIds (stepFinish s jid res).jobs) :
    x ∈ pendingIds s.jobs := by
  by_cases h : s.currentJob = some jid
  · cases res with
    | ok u =>
        rw [stepFinish, if_pos h] at hx
        exact pendingIds_updateJobStatus_subset s.jobs jid JobStatus.completed
          none (by simp) x hx
    | error e =>
        rw [stepFinish, if_pos h] at hx
        exact pendingIds_updateJobStatus_subset s.jobs jid JobStatus.failed
          (some e) (by simp) x hx
  · rw [stepFinish.eq_def, if_neg h] at hx
    exact hx

/-- One step preserves the sequence of job ids. -/
theorem step_map_id (s : ProcState) (a : PAction) :
    (step s a).jobs.map Job.id = s.jobs.map Job.id := by
  cases a with
  | claim l =>
      show (stepClaim s).1.jobs.map Job.id = s.jobs.map Job.id
      cases hc : (stepClaim s).2 with
      | none => rw [stepClaim_none_fst s hc]
      | some jid =>
          rcases stepClaim_some s jid hc with ⟨hflag, j, hg, hid, hfst⟩
          rw [hfst]
          exact updateJobStatus_map_id s.jobs j.id JobStatus.processing none
  | finish jid res =>
      show (stepFinish s jid res).jobs.map Job.id = s.jobs.map Job.id
      by_cases h : s.currentJob = some jid
      · cases res with
        | ok u =>
            rw [stepFinish, if_pos h]
            exact updateJobStatus_map_id s.jobs jid JobStatus.completed none
        | error e =>
            rw [stepFinish, if_pos h]
            exact updateJobStatus_map_id s.jobs jid JobStatus.failed (some e)
      · rw [stepFinish.eq_def, if_neg h]

/-- A run preserves the sequence of job ids. -/
theorem run_map_id (acts : List PAction) (s : ProcState) :
    (run s acts).jobs.map Job.id = s.jobs.map Job.id := by
  induction acts generalizing s with
  | nil => rfl
  | cons a rest ih =>
      show (run (step s a) rest).jobs.map Job.id = s.jobs.map Job.id
      rw [ih (step s a), step_map_id]

/-- One step preserves the consistency invariant. -/
theorem inv_step (s : ProcState) (a : PAction) (h : Inv s) : Inv (step s a) := by
  cases a with
  | claim l =>
      show Inv (stepClaim s).1
      cases hc : (stepClaim s).2 with
      | none => rw [stepClaim_none_fst s hc]; exact h
      | some jid =>
          rcases stepClaim_some s jid hc with ⟨hflag, j, hg, hid, hfst⟩
          rw [hfst]
          have hnone : s.currentJob = none := by
            cases hcur : s.currentJob with
            | none => rfl
            | some k =>
                exfalso
                have h2 := h
                unfold Inv at h2
                rw [hcur] at h2
                rw [h2.1] at hflag
                cases hflag
          have hnop : ∀ j2 ∈ s.jobs, j2.status ≠ JobStatus.processing := by
            have h2 := h
            unfold Inv at h2
            rw [hnone] at h2
            exact h2.2
          unfold Inv
          refine ⟨rfl, ?_⟩
          intro j2 hj2
          unfold updateJobStatus at hj2
          rcases List.mem_map.1 hj2 with ⟨j3, hj3, rfl⟩
          by_cases heq : j3.id = j.id
          · rw [if_pos heq]
            constructor
            · intro _; rfl
            · intro _; simpa using heq
          · rw [if_neg heq]
            constructor
            · intro hbad; exact absurd hbad heq
            · intro hbad; exact absurd hbad (hnop j3 hj3)
  | finish jid res =>
      show Inv (stepFinish s jid res)
      by_cases hcur : s.currentJob = some jid
      · have h2 := h
        unfold Inv at h2
        rw [hcur] at h2
        have hiff := h2.2
        have hjobs : (stepFinish s jid res).jobs =
            updateJobStatus s.jobs jid
              (match res with
               | Except.ok _ => JobStatus.completed
               | Except.error _ => JobStatus.failed)
              (match res with
               | Except.ok _ => none
               | Except.error e => some e) := by
          cases res with
          | ok u => rw [stepFinish, if_pos hcur]
          | error e => rw [stepFinish, if_pos hcur]
        have hflag : (stepFinish s jid res).isProcessing = false := by
          rw [stepFinish.eq_def, if_pos hcur]
        have hcur2 : (stepFinish s jid res).currentJob = none := by
          rw [stepFinish.eq_def, if_pos hcur]
        unfold Inv
        rw [hcur2, hjobs, hflag]
        refine ⟨rfl, ?_⟩
        intro j2 hj2
        unfold updateJobStatus at hj2
        rcases List.mem_map.1 hj2 with ⟨j3, hj3, rfl⟩
        by_cases heq : j3.id = jid
        · rw [if_pos heq]
          cases res <;> simp
        · rw [if_neg heq]
          intro hbad
          exact heq ((hiff j3 hj3).2 hbad)
      · rw [stepFinish.eq_def, if_neg hcur]
        exact h

/-- A run preserves the consistency invariant. -/
theorem inv_run (acts : List PAction) (s : ProcState) (h : Inv s) :
    Inv (run s acts) := by
  induction acts generalizing s with
  | nil => exact h
  | cons a rest ih => exact ih (step s a) (inv_step s a h)

/-- In a list whose image under f has no duplicates, at most one element maps
to any given value. -/
theorem length_filter_eq_le_one {α : Type} (f : α → Nat) (l : List α)
    (h : (l.map f).Nodup) (c : Nat) :
    (l.filter fun x => f x = c).length ≤ 1 := by
  induction l with
  | nil => simp
  | cons a t ih =>
      obtain ⟨ha, ht⟩ : f a ∉ t.map f ∧ (t.map f).Nodup := by
        rw [List.map_cons, List.nodup_cons] at h
        exact h
      by_cases hc : f a = c
      · rw [List.filter_cons_of_pos (by simp [hc])]
        have hnil : t.filter (fun x => f x = c) = [] := by
          refine List.filter_eq_nil_iff.2 ?_
          intro b hb
          simp only [decide_eq_true_eq]
          intro hbc
          exact ha (List.mem_map.2 ⟨b, hb, by rw [hbc, hc]⟩)
        rw [hnil]
        simp
      · rw [List.filter_cons_of_neg (by simp [hc])]
        exact ih ht

/-- Under the invariant with duplicate-free ids, at most one job is in
status processing. -/
theorem count_le_one_of_inv (s : ProcState) (h : Inv s)
    (hids : (s.jobs.map Job.id).Nodup) : processingCount s.jobs ≤ 1 := by
  unfold processingCount
  cases hcur : s.currentJob with
  | none =>
      have h2 := h
      unfold Inv at h2
      rw [hcur] at h2
      have hnil : (s.jobs.filter fun j => j.status = JobStatus.processing) = [] := by
        refine List.filter_eq_nil_iff.2 ?_
        intro j hj
        simpa using h2.2 j hj
      rw [hnil]
      simp
  | some jid =>
      have h2 := h
      unfold Inv at h2
      rw [hcur] at h2
      have hcongr : (s.jobs.filter fun j => j.status = JobStatus.processing) =
          (s.jobs.filter fun j => j.id = jid) := by
        apply List.filter_congr
        intro j hj
        have hiff := h2.2 j hj
        simp only [decide_eq_decide]
        exact hiff.symm
      rw [hcongr]
      exact length_filter_eq_le_one Job.id s.jobs hids jid

/-- Every id claimed during a run was pending when the run started. -/
theorem runEvents_fst_subset (acts : List PAction) (s : ProcState) (x : Nat)
    (hx : x ∈ (runEvents s acts).map Prod.fst) : x ∈ pendingIds s.jobs := by
  induction acts generalizing s with
  | nil => simp [runEvents] at hx
  | cons a rest ih =>
      cases a with
      | claim l =>
          cases hc : (stepClaim s).2 with
          | none =>
              simp only [runEvents, hc] at hx
              rw [stepClaim_none_fst s hc] at hx
              exact ih s hx
          | some jid =>
              simp only [runEvents, hc, List.map_cons, List.mem_cons] at hx
              rcases stepClaim_some s jid hc with ⟨hflag, j, hg, hid, hfst⟩
              rcases getNextPendingJob_mem s.jobs j hg with ⟨hjm, hjp⟩
              cases hx with
              | inl hx1 =>
                  rw [mem_pendingIds]
                  exact ⟨j, hjm, hjp, by rw [hid, hx1]⟩
              | inr hx2 =>
                  have hx3 := ih (stepClaim s).1 hx2
                  rw [hfst] at hx3
                  exact pendingIds_updateJobStatus_subset s.jobs j.id
                    JobStatus.processing none (by simp) x hx3
      | finish jid res =>
          simp only [runEvents] at hx
          exact pendingIds_stepFinish_subset s jid res x (ih _ hx)

/-- No job id is claimed twice in a run: the claim segment is atomic, so the
claimed ids are pairwise distinct. -/
theorem runEvents_fst_nodup (acts : List PAction) (s : ProcState) :
    ((runEvents s acts).map Prod.fst).Nodup := by
  induction acts generalizing s with
  | nil => simp [runEvents]
  | cons a rest ih =>
      cases a with
      | claim l =>
          cases hc : (stepClaim s).2 with
          | none =>
              simp only [runEvents, hc]
              exact ih _
          | some jid =>
              simp only [runEvents, hc, List.map_cons]
              refine List.nodup_cons.2 ⟨?_, ih _⟩
              intro hmem
              have hpend := runEvents_fst_subset rest (stepClaim s).1 jid hmem
              rcases stepClaim_some s jid hc with ⟨hflag, j, hg, hid, hfst⟩
              rw [hfst] at hpend
              rw [← hid] at hpend
              exact not_mem_pendingIds_update_self s.jobs j.id none hpend
      | finish jid res =>
          simp only [runEvents]
          exact ih _

/-- A pending job never claimed during a run is still pending afterwards. -/
theorem pending_survives (acts : List PAction) (s : ProcState) (x : Nat)
    (hinv : Inv s) (hx : x ∈ pendingIds s.jobs)
    (hno : x ∉ (runEvents s acts).map Prod.fst) :
    x ∈ pendingIds (run s acts).jobs := by
  induction acts generalizing s with
  | nil => exact hx
  | cons a rest ih =>
      cases a with
      | claim l =>
          have hrun : run s (PAction.claim l :: rest) =
              run (stepClaim s).1 rest := rfl
          rw [hrun]
          cases hc : (stepClaim s).2 with
          | none =>
              rw [stepClaim_none_fst s hc]
              refine ih s hinv hx ?_
              intro hbad
              refine hno ?_
              simp only [runEvents, hc]
              rw [stepClaim_none_fst s hc]
              exact hbad
          | some jid =>
              have hxne : x ≠ jid := by
                intro hxeq
                refine hno ?_
                simp only [runEvents, hc, List.map_cons, List.mem_cons]
                exact Or.inl hxeq
              rcases stepClaim_some s jid hc with ⟨hflag, j, hg, hid, hfst⟩
              have hinv2 : Inv (stepClaim s).1 := inv_step s (PAction.claim l) hinv
              have hx2 : x ∈ pendingIds (stepClaim s).1.jobs := by
                rw [hfst]
                exact mem_pendingIds_update_other s.jobs j.id
                  JobStatus.processing none x hx (by rw [hid]; exact hxne)
              refine ih (stepClaim s).1 hinv2 hx2 ?_
              intro hbad
              refine hno ?_
              simp only [runEvents, hc, List.map_cons, List.mem_cons]
              exact Or.inr hbad
      | finish jid res =>
          have hrun : run s (PAction.finish jid res :: rest) =
              run (stepFinish s jid res) rest := rfl
          rw [hrun]
          have hinv2 : Inv (stepFinish s jid res) :=
            inv_step s (PAction.finish jid res) hinv
          have hx2 : x ∈ pendingIds (stepFinish s jid res).jobs := by
            by_cases hcur : s.currentJob = some jid
            · have hxne : x ≠ jid := by
                intro hxeq
                have h2 := hinv
                unfold Inv at h2
                rw [hcur] at h2
                rcases (mem_pendingIds s.jobs x).1 hx with ⟨jp, hjp, hjpend, hjid⟩
                have hpr := (h2.2 jp hjp).1 (by rw [hjid, hxeq])
                rw [hjpend] at hpr
                cases hpr
              cases res with
              | ok u =>
                  rw [stepFinish, if_pos hcur]
                  exact mem_pendingIds_update_other s.jobs jid
                    JobStatus.completed none x hx hxne
              | error e =>
                  rw [stepFinish, if_pos hcur]
                  exact mem_pendingIds_update_other s.jobs jid JobStatus.failed
                    (some e) x hx hxne
            · rw [stepFinish.eq_def, if_neg hcur]
              exact hx
          refine ih (stepFinish s jid res) hinv2 hx2 ?_
          intro hbad
          refine hno ?_
          simp only [runEvents]
          exact hbad

/-! ### Claim C2: atomic job claiming -/

/-- C2: the claim segment of processQueue (select next pending plus status to
processing, guarded by the shared isProcessing flag) is one indivisible step
— it contains no await, so interleavings of several processor loops switch
only at the segment boundaries modelled by the actions.  Consequently the
claimed job ids of any interleaved run are pairwise distinct (each pending
job is claimed at most once, by one loop), at most one job is in status
processing at any instant, and when a run drains the store every initially
pending job has been claimed exactly once. -/
theorem queue_claim_atomicity (s0 : ProcState) (acts : List PAction)
    (hflag : s0.isProcessing = false) (hcur : s0.currentJob = none)
    (hproc : ∀ j ∈ s0.jobs, j.status ≠ JobStatus.processing)
    (hids : (s0.jobs.map Job.id).Nodup) :
    ((runEvents s0 acts).map Prod.fst).Nodup
  ∧ (∀ acts2 : List PAction, processingCount (run s0 acts2).jobs ≤ 1)
  ∧ (pendingIds (run s0 acts).jobs = [] →
      ∀ j ∈ s0.jobs, j.status = JobStatus.pending →
        ((runEvents s0 acts).filter fun ev => ev.1 = j.id).length = 1) := by
  have hinv : Inv s0 := by
    unfold Inv
    rw [hcur]
    exact ⟨hflag, hproc⟩
  refine ⟨runEvents_fst_nodup acts s0, ?_, ?_⟩
  · intro acts2
    have hinv2 := inv_run acts2 s0 hinv
    have hids2 : ((run s0 acts2).jobs.map Job.id).Nodup := by
      rw [run_map_id]
      exact hids
    exact count_le_one_of_inv (run s0 acts2) hinv2 hids2
  · intro hdrain j hj hjp
    have hle := length_filter_eq_le_one Prod.fst (runEvents s0 acts)
      (runEvents_fst_nodup acts s0) j.id
    by_cases h0 : ((runEvents s0 acts).filter fun ev => ev.1 = j.id).length = 0
    · exfalso
      rw [List.length_eq_zero] at h0
      have hnotin : j.id ∉ (runEvents s0 acts).map Prod.fst := by
        intro hbad
        rcases List.mem_map.1 hbad with ⟨ev, hev, hee⟩
        have hmemf : ev ∈ (runEvents s0 acts).filter fun ev2 => ev2.1 = j.id :=
          List.mem_filter.2 ⟨hev, by simp [hee]⟩
        rw [h0] at hmemf
        cases hmemf
      have hsurv := pending_survives acts s0 j.id hinv
        ((mem_pendingIds s0.jobs j.id).2 ⟨j, hj, hjp, rfl⟩) hnotin
      rw [hdrain] at hsurv
      cases hsurv
    · omega

/-- C2 witness at concrete inputs: two loops drain a two-job store; the claim
events are duplicate-free and job 1 is claimed exactly once. -/
theorem queue_claim_atomicity_witness :
    ((runEvents st0 actsW).map Prod.fst).Nodup
  ∧ ((runEvents st0 actsW).filter fun ev => ev.1 = 1).length = 1 := by
  have h := queue_claim_atomicity st0 actsW rfl rfl (by decide) (by decide)
  exact ⟨h.1, h.2.2 (by decide) jGen (by decide) rfl⟩

/-! ### Claim C8: job failure isolation -/

/-- C8: when processing the in-flight job raises any error, the catch/finally
of processQueue records status failed with the error message on that job,
releases the in-flight flag and clears currentJob, and the next claim segment
proceeds to claim the next pending job (the result of getNextPendingJob), so
the queue keeps draining. -/
theorem job_failure_isolation (s : ProcState) (jid : Nat) (e : String)
    (hcur : s.currentJob = some jid) :
    (∀ j ∈ (stepFinish s jid (Except.error e)).jobs, j.id = jid →
        j.status = JobStatus.failed ∧ j.error = some e)
  ∧ (stepFinish s jid (Except.error e)).isProcessing = false
  ∧ (stepFinish s jid (Except.error e)).currentJob = none
  ∧ (stepClaim (stepFinish s jid (Except.error e))).2 =
      Option.map Job.id
        (getNextPendingJob (stepFinish s jid (Except.error e)).jobs) := by
  have hjobs : (stepFinish s jid (Except.error e)).jobs =
      updateJobStatus s.jobs jid JobStatus.failed (some e) := by
    rw [stepFinish, if_pos hcur]
  have hflag : (stepFinish s jid (Except.error e)).isProcessing = false := by
    rw [stepFinish, if_pos hcur]
  have hcur2 : (stepFinish s jid (Except.error e)).currentJob = none := by
    rw [stepFinish, if_pos hcur]
  refine ⟨?_, hflag, hcur2, ?_⟩
  · intro j2 hj2 hid
    rw [hjobs] at hj2
    unfold updateJobStatus at hj2
    rcases List.mem_map.1 hj2 with ⟨j3, hj3, rfl⟩
    by_cases h3 : j3.id = jid
    · rw [if_pos h3] at hid ⊢
      exact ⟨rfl, rfl⟩
    · rw [if_neg h3] at hid ⊢
      exact absurd hid h3
  · unfold stepClaim
    rw [hflag]
    simp only [Bool.false_eq_true, if_false]
    cases hg : getNextPendingJob (stepFinish s jid (Except.error e)).jobs with
    | none => simp
    | some j => simp

/-- C8 witness at concrete inputs: after job 1 fails with boom, the flag is
released and the next claim segment claims job 2. -/
theorem job_failure_isolation_witness :
    (stepFinish stMid 1 (Except.error "boom")).isProcessing = false
  ∧ (stepClaim (stepFinish stMid 1 (Except.error "boom"))).2 = some 2 := by
  have h := job_failure_isolation stMid 1 "boom" (by rfl)
  refine ⟨h.2.1, ?_⟩
  rw [h.2.2.2]
  rfl

end SDWebui
